import Mathlib

/-!
Verification of the npmx install-size comparison module.

This file gives a shallow embedding of the install-size comparison logic of
the npmx web front-end:

* `getComparisonVersion` and `useInstallSizeDiff` from
  `app/composables/useInstallSizeDiff.ts`, together with the parts of the
  npm `semver` library it calls (`valid`, `prerelease`, `compare`);
* `calculateInstallSize` from `server/utils/install-size.ts`.

JavaScript numbers are modelled as exact rationals (`ℚ`) where division
occurs and as `Nat`/`Int` where the code only counts; machine-level
floating point is not needed for any statement proved here (the one
spot where JS float rounding could differ from exact arithmetic —
comparison of numeric prerelease identifiers with value ≥ 2^53 — is
noted inline and is unreachable in this module, which only ever compares
versions that have no prerelease identifiers).

Fallible JS code (the semver `compare` function throws a `TypeError` on
invalid input) is modelled with `Except`.
-/

namespace Npmx

/-! ### The npm `semver` library, as used by the module

The module calls `valid`, `prerelease` and `compare` from the `semver`
package with default (non-loose) options.  We model `semver.parse`
(the common core of all three) faithfully to the package's anchored
regular expression

  `^v?(0|[1-9]\d*)\.(0|[1-9]\d*)\.(0|[1-9]\d*)`
  `(?:-((?:0|[1-9]\d*|\d*[a-zA-Z-][a-zA-Z0-9-]*)`
  `(?:\.(?:0|[1-9]\d*|\d*[a-zA-Z-][a-zA-Z0-9-]*))*))?`
  `(?:\+([0-9A-Za-z-]+(?:\.[0-9A-Za-z-]+)*))?$`

applied to the trimmed input, preceded by the length-256 guard, and
followed by the `MAX_SAFE_INTEGER` bounds checks of the `SemVer`
constructor.  Strings are handled as their character lists so that every
definition evaluates by kernel reduction. -/

/-- `Number.MAX_SAFE_INTEGER = 2^53 - 1`. -/
def MAX_SAFE : Nat := 9007199254740991

/-- Value of a list of decimal digit characters. -/
def digitsToNat (cs : List Char) : Nat :=
  cs.foldl (fun n c => n * 10 + (c.toNat - 48)) 0

/-- Characters allowed in prerelease/build identifiers: `[0-9A-Za-z-]`. -/
def isIdentChar (c : Char) : Bool :=
  c.isDigit || c.isAlpha || c == '-'

/-- The `NUMERICIDENTIFIER` production `0|[1-9]\d*`. -/
def isNumericIdent : List Char → Bool
  | [] => false
  | [c] => c.isDigit
  | c :: cs => (decide ('1' ≤ c) && decide (c ≤ '9')) && cs.all Char.isDigit

/-- One prerelease identifier: `0|[1-9]\d*|\d*[a-zA-Z-][a-zA-Z0-9-]*`.
A chunk over `[0-9A-Za-z-]` matches the second alternative exactly when it
is nonempty and contains at least one non-digit. -/
def isPreIdentCs (cs : List Char) : Bool :=
  isNumericIdent cs || (!cs.isEmpty && cs.all isIdentChar && !cs.all Char.isDigit)

/-- One build identifier: `[0-9A-Za-z-]+`. -/
def isBuildIdentCs (cs : List Char) : Bool :=
  !cs.isEmpty && cs.all isIdentChar

/-- A stored prerelease identifier.  The `SemVer` constructor stores an
identifier as a JS number when it is all digits and its value is strictly
below `MAX_SAFE_INTEGER`, and as a string otherwise. -/
inductive PreId where
  | num (n : Nat)
  | str (s : List Char)
  deriving DecidableEq, Repr

/-- Identifier storage rule of the `SemVer` constructor
(`if (/^[0-9]+$/.test(id)) { const num = +id; if (num >= 0 && num < MAX_SAFE_INTEGER) return num } return id`). -/
def mkPreId (cs : List Char) : PreId :=
  if cs.all Char.isDigit && decide (digitsToNat cs < MAX_SAFE) then .num (digitsToNat cs)
  else .str cs

/-- A parsed semantic version (the fields of a JS `SemVer` object that
`compare` reads; `build` is parsed but ignored by `compare`). -/
structure SemVer where
  major : Nat
  minor : Nat
  patch : Nat
  prerelease : List PreId
  build : List (List Char)
  deriving DecidableEq, Repr

/-- A main-version component: must match `NUMERICIDENTIFIER` and satisfy the
constructor's `> MAX_SAFE_INTEGER` rejection (exact, because a decimal
numeral of value `> 2^53 - 1` always converts to a JS double `> 2^53 - 1`). -/
def parseMainNum (cs : List Char) : Option Nat :=
  if isNumericIdent cs && decide (digitsToNat cs ≤ MAX_SAFE) then some (digitsToNat cs)
  else none

/-- `String.prototype.split('.')` on a character list. -/
def splitOnDot : List Char → List (List Char)
  | [] => [[]]
  | c :: cs =>
    match splitOnDot cs with
    | [] => [[]]
    | g :: gs => if c == '.' then [] :: g :: gs else (c :: g) :: gs

/-- Parse the dot-separated prerelease identifiers. -/
def parsePreIds (cs : List Char) : Option (List PreId) :=
  let groups := splitOnDot cs
  if groups.all isPreIdentCs then some (groups.map mkPreId) else none

/-- Parse the dot-separated build identifiers. -/
def parseBuildIds (cs : List Char) : Option (List (List Char)) :=
  let groups := splitOnDot cs
  if groups.all isBuildIdentCs then some groups else none

/-- Parse what follows the patch number: an optional `-prerelease` (which
extends to the first `+`, since identifier characters exclude `+`) and an
optional `+build`. -/
def parseSuffix (cs : List Char) : Option (List PreId × List (List Char)) :=
  match cs with
  | [] => some ([], [])
  | '-' :: rest =>
    let pre := rest.takeWhile (fun c => c != '+')
    let restB := rest.dropWhile (fun c => c != '+')
    match parsePreIds pre with
    | none => none
    | some pids =>
      match restB with
      | [] => some (pids, [])
      | _ :: b => (parseBuildIds b).map (fun bs => (pids, bs))
  | '+' :: b => (parseBuildIds b).map (fun bs => ([], bs))
  | _ => none

/-- `String.prototype.trim` (JS trims a slightly larger Unicode whitespace
set; identical on ASCII input). -/
def jsTrim (cs : List Char) : List Char :=
  ((cs.dropWhile Char.isWhitespace).reverse.dropWhile Char.isWhitespace).reverse

/-- `semver.parse` with default options: `null` (here `none`) on any
malformed input, never an exception.  The 256 guard is JS
`version.length > MAX_LENGTH` (UTF-16 units; identical on ASCII input). -/
def parseSemVer (s : String) : Option SemVer :=
  if s.data.length > 256 then none
  else
    let t := jsTrim s.data
    let cs := match t with
      | 'v' :: rest => rest
      | _ => t
    let d1 := cs.takeWhile Char.isDigit
    let r1 := cs.dropWhile Char.isDigit
    match r1 with
    | '.' :: r1t =>
      let d2 := r1t.takeWhile Char.isDigit
      let r2 := r1t.dropWhile Char.isDigit
      match r2 with
      | '.' :: r2t =>
        let d3 := r2t.takeWhile Char.isDigit
        let r3 := r2t.dropWhile Char.isDigit
        match parseMainNum d1, parseMainNum d2, parseMainNum d3, parseSuffix r3 with
        | some a, some b, some c, some (pre, bld) =>
          some { major := a, minor := b, patch := c, prerelease := pre, build := bld }
        | _, _, _, _ => none
      | _ => none
    | _ => none

/-- `semver.valid(v) !== null`. -/
def validJS (s : String) : Bool := (parseSemVer s).isSome

/-- `semver.prerelease`: the prerelease identifiers, or `null` when the
input is invalid or has none. -/
def prereleaseJS (s : String) : Option (List PreId) :=
  match parseSemVer s with
  | none => none
  | some p => if p.prerelease.isEmpty then none else some p.prerelease

/-- `semver.prerelease(v) !== null`. -/
def isPrereleaseStr (s : String) : Bool := (prereleaseJS s).isSome

/-! #### `semver.compare` -/

/-- Comparison of two JS numbers as `compareIdentifiers` performs it:
`a === b ? 0 : a < b ? -1 : 1`. -/
def cmpNat (a b : Nat) : Int :=
  if a = b then 0 else if a < b then -1 else 1

/-- JS `x || y` on comparator results (`0` is falsy). -/
def jsOr (a b : Int) : Int := if a = 0 then b else a

/-- The `/^[0-9]+$/` test of `compareIdentifiers`, applied to a stored
identifier (a JS number always passes it). -/
def numericTest : PreId → Bool
  | .num _ => true
  | .str s => !s.isEmpty && s.all Char.isDigit

/-- Numeric value of a stored identifier (used when both test numeric).
JS converts with unary `+`, which rounds values above `2^53`; that case
can only arise for prerelease identifiers and is unreachable in this
module (see `comparePre` below), so the exact value is used. -/
def preIdVal : PreId → Nat
  | .num n => n
  | .str s => digitsToNat s

/-- The string payload of a stored identifier (only read in the branch of
`compareIdentifiers` where both identifiers failed the numeric test, hence
both are stored strings). -/
def preIdStr : PreId → List Char
  | .num _ => []
  | .str s => s

/-- JS string `<` (UTF-16 code-unit lexicographic; identical to code-point
order on the ASCII identifier alphabet). -/
def charListLt : List Char → List Char → Bool
  | [], [] => false
  | [], _ :: _ => true
  | _ :: _, [] => false
  | a :: as, b :: bs =>
    if a.toNat < b.toNat then true
    else if b.toNat < a.toNat then false
    else charListLt as bs

/-- `compareIdentifiers` from `semver/internal/identifiers.js`. -/
def cmpIdentifiers (a b : PreId) : Int :=
  if numericTest a && numericTest b then cmpNat (preIdVal a) (preIdVal b)
  else if a = b then 0
  else if numericTest a then -1
  else if numericTest b then 1
  else if charListLt (preIdStr a) (preIdStr b) then -1 else 1

/-- The identifier loop of `SemVer.prototype.comparePre` (entered only when
both versions have prerelease identifiers). -/
def comparePreLoop : List PreId → List PreId → Int
  | [], [] => 0
  | _ :: _, [] => 1
  | [], _ :: _ => -1
  | x :: xs, y :: ys => if x = y then comparePreLoop xs ys else cmpIdentifiers x y

/-- `SemVer.prototype.comparePre`: a version with prerelease identifiers
precedes one without. -/
def comparePre (a b : List PreId) : Int :=
  if !a.isEmpty && b.isEmpty then -1
  else if a.isEmpty && !b.isEmpty then 1
  else if a.isEmpty && b.isEmpty then 0
  else comparePreLoop a b

/-- `SemVer.prototype.compareMain`. -/
def compareMain (x y : SemVer) : Int :=
  jsOr (cmpNat x.major y.major) (jsOr (cmpNat x.minor y.minor) (cmpNat x.patch y.patch))

/-- `SemVer.prototype.compare` (build metadata ignored). -/
def cmpSemver (x y : SemVer) : Int :=
  jsOr (compareMain x y) (comparePre x.prerelease y.prerelease)

/-- `semver.compare(a, b)`: constructs `SemVer` objects for both arguments
and therefore throws a `TypeError` when either is invalid. -/
def compareExc (a b : String) : Except String Int :=
  match parseSemVer a with
  | none => .error ("Invalid Version: " ++ a)
  | some x =>
    match parseSemVer b with
    | none => .error ("Invalid Version: " ++ b)
    | some y => .ok (cmpSemver x y)

end Npmx

namespace Npmx

/-! ### JavaScript list plumbing used by the module

`Array.prototype.sort(cmp)` with a consistent comparator produces the
stable ascending reordering; since the comparator taken from
`semver.compare` can throw, the sort is modelled as a stable insertion
sort in `Except` (an element is inserted before the first element it
compares `≤ 0` against, which is exactly the stable order). -/

/-- Stable insertion step for a throwing comparator. -/
def insertExc (cmp : String → String → Except String Int) (a : String) :
    List String → Except String (List String)
  | [] => .ok [a]
  | b :: l =>
    match cmp a b with
    | .error e => .error e
    | .ok c =>
      if c ≤ 0 then .ok (a :: b :: l)
      else
        match insertExc cmp a l with
        | .error e => .error e
        | .ok t => .ok (b :: t)

/-- Stable sort for a throwing comparator, modelling `.sort(cmp)`. -/
def sortExc (cmp : String → String → Except String Int) :
    List String → Except String (List String)
  | [] => .ok []
  | a :: l =>
    match sortExc cmp l with
    | .error e => .error e
    | .ok t => insertExc cmp a t

/-- `Array.prototype.indexOf`: first index of `a`, or `-1`. -/
def jsIndexOf : List String → String → Int
  | [], _ => -1
  | b :: l, a =>
    if b = a then 0
    else
      let r := jsIndexOf l a
      if r = -1 then -1 else r + 1

/-! ### The packument slice read by the module

Only the `time` map and the `dist-tags` map of a `SlimPackument` are read
by `useInstallSizeDiff`.  A JS object literal is modelled as an
association list in property insertion order (`Object.keys` order for
these maps, whose keys are never array indices).  The code accesses
`dist-tags` with optional chaining, so that map is modelled as optional;
`time` is accessed directly and is a required field of the TypeScript
type. -/

structure SlimPackument where
  time : List (String × String)
  distTags : Option (List (String × String))
  deriving DecidableEq, Repr

/-- `pkg['dist-tags']?.latest`. -/
def distTagLatest (pkg : SlimPackument) : Option String :=
  match pkg.distTags with
  | none => none
  | some tags => tags.lookup "latest"

/-- The filter of `getComparisonVersion`:
`Object.keys(pkg.time).filter(v => v !== 'modified' && v !== 'created' && valid(v) !== null && prerelease(v) === null)`. -/
def stableVersionKeys (pkg : SlimPackument) : List String :=
  (pkg.time.map Prod.fst).filter fun v =>
    !(v == "modified") && !(v == "created") && validJS v && !(isPrereleaseStr v)

/-- `getComparisonVersion` from `app/composables/useInstallSizeDiff.ts`.
The `!latest` truthiness test rejects both a missing tag and the empty
string; the final `stableVersions[currentIdx - 1]!` non-null assertion is
modelled by returning the (always-`some`) list access itself. -/
def getComparisonVersion (pkg : SlimPackument) (resolvedVersion : String) :
    Except String (Option String) :=
  if isPrereleaseStr resolvedVersion then
    match distTagLatest pkg with
    | none => .ok none
    | some latest =>
      if latest = "" || latest = resolvedVersion then .ok none else .ok (some latest)
  else
    match sortExc compareExc (stableVersionKeys pkg) with
    | .error e => .error e
    | .ok stableVersions =>
      let currentIdx := jsIndexOf stableVersions resolvedVersion
      if currentIdx ≤ 0 then .ok none
      else .ok (stableVersions.get? (currentIdx - 1).toNat)

/-! ### Specification-side view of the stable-version list

For relating the code to the specification's wording, the same sorting is
expressed as a pure stable insertion sort under the total comparator
`semverLeB`, and the stable list as the plain validity filter (the
explicit `modified`/`created` exclusions of the code are subsumed by
validity). -/

/-- Pure stable insertion step under a boolean `≤`. -/
def orderedInsertB {α : Type} (le : α → α → Bool) (a : α) : List α → List α
  | [] => [a]
  | b :: l => if le a b then a :: b :: l else b :: orderedInsertB le a l

/-- Pure stable insertion sort under a boolean `≤`. -/
def insertionSortB {α : Type} (le : α → α → Bool) : List α → List α
  | [] => []
  | a :: l => orderedInsertB le a (insertionSortB le l)

/-- Semantic-version `≤` on version strings (defined for valid inputs;
`true` elsewhere, a case that never reaches a sort in this development). -/
def semverLeB (a b : String) : Bool :=
  match parseSemVer a, parseSemVer b with
  | some x, some y => decide (cmpSemver x y ≤ 0)
  | _, _ => true

/-- The list of all valid non-prerelease versions of the `time` map, in
`Object.keys` order. -/
def specStableFilter (pkg : SlimPackument) : List String :=
  (pkg.time.map Prod.fst).filter fun v => validJS v && !(isPrereleaseStr v)

/-- The list of all valid non-prerelease versions of the `time` map, in
ascending semantic-version order (stable). -/
def specStableSorted (pkg : SlimPackument) : List String :=
  insertionSortB semverLeB (specStableFilter pkg)

/-! ### Install-size results and the diff computation

Sizes are exact rationals (JS doubles); the dependency count is an
integer.  These are the fields of `InstallSizeResult` from
`shared/types` and `InstallSizeDiff` from
`app/composables/useInstallSizeDiff.ts`. -/

structure DependencySize where
  name : String
  version : String
  size : ℚ
  optional : Option Bool
  deriving DecidableEq, Repr

structure InstallSizeResult where
  package : String
  version : String
  selfSize : ℚ
  totalSize : ℚ
  dependencyCount : ℤ
  dependencies : List DependencySize
  deriving DecidableEq, Repr

structure InstallSizeDiff where
  comparisonVersion : String
  sizeRatio : ℚ
  sizeIncrease : ℚ
  currentSize : ℚ
  previousSize : ℚ
  depDiff : ℤ
  currentDeps : ℤ
  previousDeps : ℤ
  sizeThresholdExceeded : Bool
  depThresholdExceeded : Bool
  deriving DecidableEq, Repr

/-- `SIZE_INCREASE_THRESHOLD = 0.25` (exactly representable as a double). -/
def SIZE_INCREASE_THRESHOLD : ℚ := 1 / 4

/-- `DEP_INCREASE_THRESHOLD = 5`. -/
def DEP_INCREASE_THRESHOLD : ℤ := 5

/-- The guarded ratio of the diff computed:
`previous.totalSize > 0 ? (current.totalSize - previous.totalSize) / previous.totalSize : 0`. -/
def sizeRatioOf (current previous : InstallSizeResult) : ℚ :=
  if 0 < previous.totalSize then
    (current.totalSize - previous.totalSize) / previous.totalSize
  else 0

/-- The body of the `diff` computed of `useInstallSizeDiff`, as a function
of its five reactive inputs: the package name, the resolved version, the
value of the `comparisonVersion` computed, the current install-size result
and the fetched comparison install-size result.  `!current || !previous ||
!cv` rejects missing records and (for `cv`) the empty string;
`current.version !== version` compares a string against the possibly
null/undefined resolved version. -/
def diffFrom (name : String) (resolvedVersion : Option String) (cv : Option String)
    (current previous : Option InstallSizeResult) : Option InstallSizeDiff :=
  match current, previous, cv with
  | some current, some previous, some cv =>
    if cv = "" then none
    else if previous.version ≠ cv ∨ previous.package ≠ name then none
    else if some current.version ≠ resolvedVersion ∨ current.package ≠ name then none
    else
      let sizeRatio := sizeRatioOf current previous
      let depDiff := current.dependencyCount - previous.dependencyCount
      let sizeThresholdExceeded := decide (sizeRatio > SIZE_INCREASE_THRESHOLD)
      let depThresholdExceeded := decide (depDiff > DEP_INCREASE_THRESHOLD)
      if !sizeThresholdExceeded && !depThresholdExceeded then none
      else
        some { comparisonVersion := cv
               sizeRatio := sizeRatio
               sizeIncrease := current.totalSize - previous.totalSize
               currentSize := current.totalSize
               previousSize := previous.totalSize
               depDiff := depDiff
               currentDeps := current.dependencyCount
               previousDeps := previous.dependencyCount
               sizeThresholdExceeded := sizeThresholdExceeded
               depThresholdExceeded := depThresholdExceeded }
  | _, _, _ => none

/-- The `comparisonVersion` computed of `useInstallSizeDiff`:
`if (!pkgVal || !version) return null; return getComparisonVersion(pkgVal, version)`
(the `!version` truthiness test also rejects the empty string). -/
def comparisonVersionOpt (pkg : Option SlimPackument) (resolvedVersion : Option String) :
    Except String (Option String) :=
  match pkg, resolvedVersion with
  | some p, some v => if v = "" then .ok none else getComparisonVersion p v
  | _, _ => .ok none

/-! ### The reactive fetch (client side)

The `watch` callback issues `fetchComparisonSize()` exactly when the
freshly computed `comparisonVersion` is truthy; the request URL is the one
built by the `useLazyFetch` URL function.  A client session is modelled as
the list of successive snapshots of the reactive sources, and
`comparisonFetchUrls` collects the URLs of the fetches those snapshots
trigger (an exception in the computed aborts reactivity and issues no
fetch). -/

structure ReactiveInput where
  packageName : String
  resolvedVersion : Option String
  pkg : Option SlimPackument
  deriving Repr

def fetchUrlFor (name v : String) : String :=
  "/api/registry/install-size/" ++ name ++ "/v/" ++ v

def comparisonFetchUrls (trace : List ReactiveInput) : List String :=
  trace.flatMap fun s =>
    match comparisonVersionOpt s.pkg s.resolvedVersion with
    | .ok (some v) => if v = "" then [] else [fetchUrlFor s.packageName v]
    | _ => []

/-! ### Repeated evaluation of the diff

Each re-evaluation of the `diff` computed reads only the current values of
its five inputs; a sequence of evaluations is the pointwise map of
`diffFrom` over the sequence of input snapshots. -/

structure DiffInputs where
  packageName : String
  resolvedVersion : Option String
  comparisonVersion : Option String
  current : Option InstallSizeResult
  comparison : Option InstallSizeResult

def evalDiff (i : DiffInputs) : Option InstallSizeDiff :=
  diffFrom i.packageName i.resolvedVersion i.comparisonVersion i.current i.comparison

def evalDiffSequence (calls : List DiffInputs) : List (Option InstallSizeDiff) :=
  calls.map evalDiff

/-! ### `calculateInstallSize` from `server/utils/install-size.ts`

Modelled from the spec: `resolveDependencyTree` is not among the provided
sources; per the specification it resolves the package's dependency tree
and yields a `Map` from `name@version` keys to per-package entries
`{name, version, size, optional}`.  Its result is modelled as an
association list in `Map` iteration order; the well-formedness of its
keys (`key = name + '@' + version` of the entry) enters the theorems as an
explicit hypothesis.  The accumulation loop of the source is expressed as
the equivalent filter/map/sum/length. -/

structure ResolvedDep where
  name : String
  version : String
  size : ℚ
  optional : Bool
  deriving DecidableEq, Repr

def selfKeyOf (name version : String) : String := name ++ "@" ++ version

/-- Descending-size comparator `(a, b) => b.size - a.size`, as the stable
`≤ 0` insertion test. -/
def depSizeDescLe (a b : DependencySize) : Bool :=
  decide (b.size - a.size ≤ 0)

def calculateInstallSize (name version : String)
    (resolved : List (String × ResolvedDep)) : InstallSizeResult :=
  let selfKey := selfKeyOf name version
  let selfSize := ((resolved.lookup selfKey).map ResolvedDep.size).getD 0
  let entries := resolved.filter fun e => !(e.1 == selfKey)
  let dependencies := entries.map fun e =>
    { name := e.2.name, version := e.2.version, size := e.2.size
      optional := if e.2.optional then some true else none : DependencySize }
  let totalSize := selfSize + (dependencies.map DependencySize.size).sum
  let dependencyCount := (dependencies.length : ℤ)
  { package := name
    version := version
    selfSize := selfSize
    totalSize := totalSize
    dependencyCount := dependencyCount
    dependencies := insertionSortB depSizeDescLe dependencies }

/-! ### Specification-side selector by creation time

Modelled from the spec: the specification describes the comparison target
for a stable version as "the previous stable release (by creation time)",
i.e. the stable version whose publish timestamp in the `time` map is the
latest one strictly before the resolved version's timestamp.  This
definition follows that wording (ISO-8601 timestamps compare
lexicographically) and exists only to be compared against the code's
`getComparisonVersion`. -/

def prevStableByCreationTime (pkg : SlimPackument) (v : String) : Option String :=
  match pkg.time.lookup v with
  | none => none
  | some tv =>
    ((pkg.time.filter fun e =>
        validJS e.1 && !(isPrereleaseStr e.1) && charListLt e.2.data tv.data).foldl
      (fun acc e =>
        match acc with
        | none => some e
        | some b => if charListLt b.2.data e.2.data then some e else acc) none).map Prod.fst

/-! ### Concrete fixtures used by witnesses and counterexamples -/

/-- A packument with three stable releases (the shape of the repository's
own test fixture). -/
def pkgThreeStable : SlimPackument :=
  { time := [("created", "2020-01-01"), ("1.0.0", "2020-01-01"),
             ("1.1.0", "2021-01-01"), ("1.2.0", "2022-01-01")]
    distTags := some [("latest", "1.2.0")] }

/-- A packument whose `latest` dist-tag is the empty string. -/
def pkgEmptyLatest : SlimPackument :=
  { time := [("created", "2020-01-01"), ("2.0.0-beta.1", "2021-01-01")]
    distTags := some [("latest", "")] }

/-- A packument with a prerelease and a stable `latest` tag. -/
def pkgPrereleaseLatest : SlimPackument :=
  { time := [("created", "2020-01-01"), ("1.0.0", "2020-01-01"),
             ("2.0.0-beta.1", "2021-01-01")]
    distTags := some [("latest", "1.0.0"), ("next", "2.0.0-beta.1")] }

/-- A packument in which the semver-smaller version `1.0.1` was published
after `2.0.0` (a backport): semver order and creation-time order disagree. -/
def pkgBackport : SlimPackument :=
  { time := [("created", "2020-01-01"), ("2.0.0", "2021-01-01"),
             ("1.0.1", "2022-01-01")]
    distTags := some [("latest", "2.0.0")] }

/-- Current result whose previous counterpart has a negative total size. -/
def curNegPrev : InstallSizeResult :=
  { package := "p", version := "1.1.0", selfSize := 0, totalSize := 0
    dependencyCount := 10, dependencies := [] }

/-- A degenerate comparison result with a negative total size. -/
def prevNegPrev : InstallSizeResult :=
  { package := "p", version := "1.0.0", selfSize := 0, totalSize := -1
    dependencyCount := 0, dependencies := [] }

/-- Current result of the repository's size-threshold test fixture. -/
def curSizeOnly : InstallSizeResult :=
  { package := "pkg-size-only", version := "1.1.0", selfSize := 1000
    totalSize := 7000, dependencyCount := 4, dependencies := [] }

/-- Comparison result of the repository's size-threshold test fixture. -/
def prevSizeOnly : InstallSizeResult :=
  { package := "pkg-size-only", version := "1.0.0", selfSize := 1000
    totalSize := 5000, dependencyCount := 3, dependencies := [] }

/-- Current result of the repository's below-threshold test fixture. -/
def curNoThreshold : InstallSizeResult :=
  { package := "pkg-no-threshold", version := "1.1.0", selfSize := 1000
    totalSize := 5100, dependencyCount := 4, dependencies := [] }

/-- Comparison result of the repository's below-threshold test fixture. -/
def prevNoThreshold : InstallSizeResult :=
  { package := "pkg-no-threshold", version := "1.0.0", selfSize := 1000
    totalSize := 5000, dependencyCount := 3, dependencies := [] }

/-- The diff produced by the size-threshold fixture (exact values of the
repository's own vitest expectation). -/
def diffSizeOnly : InstallSizeDiff :=
  { comparisonVersion := "1.0.0", sizeRatio := 2 / 5, sizeIncrease := 2000
    currentSize := 7000, previousSize := 5000, depDiff := 1, currentDeps := 4
    previousDeps := 3, sizeThresholdExceeded := true, depThresholdExceeded := false }

/-- A single reactive snapshot with no packument loaded. -/
def snapshotNoPkg : ReactiveInput :=
  { packageName := "test", resolvedVersion := some "1.0.0", pkg := none }

/-- A resolved dependency map fixture for `calculateInstallSize`. -/
def resolvedFixture : List (String × ResolvedDep) :=
  [("a@1.0.0", { name := "a", version := "1.0.0", size := 10, optional := false }),
   ("b@2.0.0", { name := "b", version := "2.0.0", size := 5, optional := true }),
   ("c@1.0.0", { name := "c", version := "1.0.0", size := 50, optional := false })]

end Npmx

namespace Npmx

/-! ## Lemmas about the generic list plumbing -/

theorem orderedInsertB_perm {α : Type} (le : α → α → Bool) (a : α) :
    ∀ l : List α, List.Perm (orderedInsertB le a l) (a :: l) := by
  intro l
  induction l with
  | nil => exact List.Perm.refl _
  | cons b t ih =>
    unfold orderedInsertB
    split
    · exact List.Perm.refl _
    · exact (ih.cons b).trans (List.Perm.swap a b t)

theorem insertionSortB_perm {α : Type} (le : α → α → Bool) :
    ∀ l : List α, List.Perm (insertionSortB le l) l := by
  intro l
  induction l with
  | nil => exact List.Perm.refl _
  | cons a t ih =>
    exact (orderedInsertB_perm le a (insertionSortB le t)).trans (ih.cons a)

theorem mem_orderedInsertB {α : Type} {le : α → α → Bool} {a x : α} {l : List α} :
    x ∈ orderedInsertB le a l ↔ x = a ∨ x ∈ l := by
  rw [(orderedInsertB_perm le a l).mem_iff, List.mem_cons]

theorem mem_insertionSortB {α : Type} {le : α → α → Bool} {x : α} {l : List α} :
    x ∈ insertionSortB le l ↔ x ∈ l :=
  (insertionSortB_perm le l).mem_iff

theorem orderedInsertB_pairwise {α : Type} (le : α → α → Bool) (P : α → Prop)
    (total : ∀ x y, P x → P y → le x y = true ∨ le y x = true)
    (tr : ∀ x y z, P x → P y → P z → le x y = true → le y z = true → le x z = true)
    (a : α) (ha : P a) :
    ∀ l : List α, (∀ x ∈ l, P x) → l.Pairwise (fun x y => le x y = true) →
      (orderedInsertB le a l).Pairwise (fun x y => le x y = true) := by
  intro l
  induction l with
  | nil => intro _ _; simp [orderedInsertB]
  | cons b t ih =>
    intro hmem hp
    rw [List.pairwise_cons] at hp
    have hb : P b := hmem b (List.mem_cons_self b t)
    have ht : ∀ x ∈ t, P x := fun x hx => hmem x (List.mem_cons_of_mem b hx)
    unfold orderedInsertB
    by_cases hab : le a b = true
    · rw [if_pos hab]
      refine List.pairwise_cons.2 ⟨?_, List.pairwise_cons.2 ⟨hp.1, hp.2⟩⟩
      intro x hx
      rcases List.mem_cons.1 hx with hx | hx
      · exact hx ▸ hab
      · exact tr a b x ha hb (ht x hx) hab (hp.1 x hx)
    · rw [if_neg hab]
      have hba : le b a = true := (total a b ha hb).resolve_left hab
      refine List.pairwise_cons.2 ⟨?_, ih ht hp.2⟩
      intro x hx
      rcases mem_orderedInsertB.1 hx with hx | hx
      · exact hx ▸ hba
      · exact hp.1 x hx

theorem insertionSortB_pairwise {α : Type} (le : α → α → Bool) (P : α → Prop)
    (total : ∀ x y, P x → P y → le x y = true ∨ le y x = true)
    (tr : ∀ x y z, P x → P y → P z → le x y = true → le y z = true → le x z = true) :
    ∀ l : List α, (∀ x ∈ l, P x) →
      (insertionSortB le l).Pairwise (fun x y => le x y = true) := by
  intro l
  induction l with
  | nil => intro _; exact List.Pairwise.nil
  | cons a t ih =>
    intro hmem
    have ha : P a := hmem a (List.mem_cons_self a t)
    have ht : ∀ x ∈ t, P x := fun x hx => hmem x (List.mem_cons_of_mem a hx)
    exact orderedInsertB_pairwise le P total tr a ha (insertionSortB le t)
      (fun x hx => ht x (mem_insertionSortB.1 hx)) (ih ht)

theorem jsIndexOf_of_not_mem {a : String} :
    ∀ {l : List String}, a ∉ l → jsIndexOf l a = -1 := by
  intro l
  induction l with
  | nil => intro _; rfl
  | cons b t ih =>
    intro h
    have hba : ¬b = a := fun hba => h (hba ▸ List.mem_cons_self b t)
    have hat : a ∉ t := fun hat => h (List.mem_cons_of_mem b hat)
    simp only [jsIndexOf, if_neg hba, ih hat, reduceIte]

theorem jsIndexOf_spec {a : String} :
    ∀ {l : List String}, a ∈ l →
      ∃ k : Nat, jsIndexOf l a = (k : Int) ∧ l[k]? = some a ∧
        ∀ j : Nat, j < k → l[j]? ≠ some a := by
  intro l
  induction l with
  | nil => intro h; exact absurd h (List.not_mem_nil a)
  | cons b t ih =>
    intro h
    by_cases hba : b = a
    · exact ⟨0, by simp [jsIndexOf, hba], by simp [hba], by omega⟩
    · have hat : a ∈ t := by
        rcases List.mem_cons.1 h with h | h
        · exact absurd h.symm hba
        · exact h
      obtain ⟨k, hk, hget, hfirst⟩ := ih hat
      refine ⟨k + 1, ?_, by simpa using hget, ?_⟩
      · simp only [jsIndexOf, if_neg hba, hk]
        have hne : ¬((k : Int) = -1) := by omega
        simp only [hne, reduceIte]
        omega
      · intro j hj
        match j with
        | 0 => simpa using hba
        | j + 1 =>
          have hjk : j < k := by omega
          simpa using hfirst j hjk

end Npmx


namespace Npmx

/-! ## Lemmas about `semver.compare` on stable versions -/

theorem cmpNat_eq_zero_iff (a b : Nat) : cmpNat a b = 0 ↔ a = b := by
  unfold cmpNat
  split_ifs with h1 h2 <;> simp [h1]

theorem cmpNat_le_zero_iff (a b : Nat) : cmpNat a b ≤ 0 ↔ a ≤ b := by
  unfold cmpNat
  split_ifs with h1 h2 <;> simp [h1] <;> omega

theorem jsOr_le_zero_iff (x y : Int) :
    jsOr x y ≤ 0 ↔ (x = 0 ∧ y ≤ 0) ∨ (x ≠ 0 ∧ x ≤ 0) := by
  unfold jsOr
  split_ifs with h <;> simp [h]

theorem jsOr_zero_right (c : Int) : jsOr c 0 = c := by
  unfold jsOr
  split_ifs <;> omega

theorem compareMain_le_iff (x y : SemVer) :
    compareMain x y ≤ 0 ↔
      (x.major < y.major ∨ (x.major = y.major ∧
        (x.minor < y.minor ∨ (x.minor = y.minor ∧ x.patch ≤ y.patch)))) := by
  unfold compareMain
  rw [jsOr_le_zero_iff, jsOr_le_zero_iff]
  simp only [cmpNat_eq_zero_iff, cmpNat_le_zero_iff, ne_eq]
  omega

theorem compareMain_total (x y : SemVer) :
    compareMain x y ≤ 0 ∨ compareMain y x ≤ 0 := by
  rw [compareMain_le_iff, compareMain_le_iff]
  omega

theorem compareMain_trans (x y z : SemVer) (h1 : compareMain x y ≤ 0)
    (h2 : compareMain y z ≤ 0) : compareMain x z ≤ 0 := by
  rw [compareMain_le_iff] at h1 h2 ⊢
  omega

/-- A valid version string with no prerelease parses to a `SemVer` with an
empty prerelease list. -/
theorem parse_of_stable {s : String} (hv : validJS s = true)
    (hs : isPrereleaseStr s = false) :
    ∃ p : SemVer, parseSemVer s = some p ∧ p.prerelease = [] := by
  unfold validJS at hv
  unfold isPrereleaseStr prereleaseJS at hs
  cases hp : parseSemVer s with
  | none => rw [hp] at hv; simp at hv
  | some p =>
    rw [hp] at hs
    refine ⟨p, rfl, ?_⟩
    by_cases he : p.prerelease.isEmpty
    · exact List.isEmpty_iff.1 he
    · simp [he] at hs

theorem comparePre_nil_nil : comparePre [] [] = 0 := rfl

theorem cmpSemver_no_pre {x y : SemVer} (hx : x.prerelease = [])
    (hy : y.prerelease = []) : cmpSemver x y = compareMain x y := by
  unfold cmpSemver
  rw [hx, hy, comparePre_nil_nil, jsOr_zero_right]

/-- Evaluation of `semverLeB` on two parsed strings. -/
theorem semverLeB_eq {a b : String} {pa pb : SemVer}
    (hpa : parseSemVer a = some pa) (hpb : parseSemVer b = some pb) :
    semverLeB a b = decide (cmpSemver pa pb ≤ 0) := by
  unfold semverLeB
  rw [hpa, hpb]

/-- Validity of a version string together with absence of prerelease
identifiers, the invariant of every element of the sorted list in
`getComparisonVersion`. -/
def StableStr (s : String) : Prop :=
  validJS s = true ∧ isPrereleaseStr s = false

theorem semverLeB_total_stable (a b : String) (ha : StableStr a) (hb : StableStr b) :
    semverLeB a b = true ∨ semverLeB b a = true := by
  obtain ⟨pa, hpa, hpra⟩ := parse_of_stable ha.1 ha.2
  obtain ⟨pb, hpb, hprb⟩ := parse_of_stable hb.1 hb.2
  rw [semverLeB_eq hpa hpb, semverLeB_eq hpb hpa]
  rw [cmpSemver_no_pre hpra hprb, cmpSemver_no_pre hprb hpra]
  rcases compareMain_total pa pb with h | h
  · exact Or.inl (by simpa using h)
  · exact Or.inr (by simpa using h)

theorem semverLeB_trans_stable (a b c : String) (ha : StableStr a)
    (hb : StableStr b) (hc : StableStr c) (hab : semverLeB a b = true)
    (hbc : semverLeB b c = true) : semverLeB a c = true := by
  obtain ⟨pa, hpa, hpra⟩ := parse_of_stable ha.1 ha.2
  obtain ⟨pb, hpb, hprb⟩ := parse_of_stable hb.1 hb.2
  obtain ⟨pc, hpc, hprc⟩ := parse_of_stable hc.1 hc.2
  rw [semverLeB_eq hpa hpb, cmpSemver_no_pre hpra hprb] at hab
  rw [semverLeB_eq hpb hpc, cmpSemver_no_pre hprb hprc] at hbc
  rw [semverLeB_eq hpa hpc, cmpSemver_no_pre hpra hprc]
  have h1 : compareMain pa pb ≤ 0 := by simpa using hab
  have h2 : compareMain pb pc ≤ 0 := by simpa using hbc
  simpa using compareMain_trans pa pb pc h1 h2

/-! ## The throwing sort equals the pure sort on valid input -/

theorem insertExc_ok {a : String} (ha : validJS a = true) :
    ∀ {l : List String}, (∀ x ∈ l, validJS x = true) →
      insertExc compareExc a l = .ok (orderedInsertB semverLeB a l) := by
  intro l
  induction l with
  | nil => intro _; rfl
  | cons b t ih =>
    intro hmem
    have hb : validJS b = true := hmem b (List.mem_cons_self b t)
    have ht : ∀ x ∈ t, validJS x = true := fun x hx => hmem x (List.mem_cons_of_mem b hx)
    obtain ⟨pa, hpa⟩ := Option.isSome_iff_exists.1 ha
    obtain ⟨pb, hpb⟩ := Option.isSome_iff_exists.1 hb
    have hcmp : compareExc a b = .ok (cmpSemver pa pb) := by
      unfold compareExc
      rw [hpa, hpb]
    have hle : semverLeB a b = decide (cmpSemver pa pb ≤ 0) := semverLeB_eq hpa hpb
    by_cases hc : cmpSemver pa pb ≤ 0
    · simp [insertExc, orderedInsertB, hcmp, hle, hc]
    · simp [insertExc, orderedInsertB, hcmp, hle, hc, ih ht]

theorem sortExc_ok :
    ∀ {l : List String}, (∀ x ∈ l, validJS x = true) →
      sortExc compareExc l = .ok (insertionSortB semverLeB l) := by
  intro l
  induction l with
  | nil => intro _; rfl
  | cons a t ih =>
    intro hmem
    have ha : validJS a = true := hmem a (List.mem_cons_self a t)
    have ht : ∀ x ∈ t, validJS x = true := fun x hx => hmem x (List.mem_cons_of_mem a hx)
    have hsorted : ∀ x ∈ insertionSortB semverLeB t, validJS x = true :=
      fun x hx => ht x (mem_insertionSortB.1 hx)
    simp only [sortExc, ih ht, insertExc_ok ha hsorted, insertionSortB]

end Npmx

namespace Npmx

/-! ## The stable branch of `getComparisonVersion` -/

theorem validJS_modified : validJS "modified" = false := by decide

theorem validJS_created : validJS "created" = false := by decide

/-- The code's filter (which also names `modified` and `created`) equals
the plain validity filter: those two keys are not valid versions. -/
theorem stableVersionKeys_eq (pkg : SlimPackument) :
    stableVersionKeys pkg = specStableFilter pkg := by
  unfold stableVersionKeys specStableFilter
  apply List.filter_congr
  intro x _
  by_cases h1 : x = "modified"
  · subst h1
    simp [validJS_modified]
  · by_cases h2 : x = "created"
    · subst h2
      simp [validJS_created]
    · have hb1 : (x == "modified") = false := beq_eq_false_iff_ne.2 h1
      have hb2 : (x == "created") = false := beq_eq_false_iff_ne.2 h2
      rw [hb1, hb2]
      simp

theorem specStableFilter_stable (pkg : SlimPackument) :
    ∀ x ∈ specStableFilter pkg, StableStr x := by
  intro x hx
  unfold specStableFilter at hx
  have hp := List.of_mem_filter hx
  simp only [Bool.and_eq_true, Bool.not_eq_true'] at hp
  exact ⟨hp.1, hp.2⟩

theorem specStableSorted_stable (pkg : SlimPackument) :
    ∀ x ∈ specStableSorted pkg, StableStr x := by
  intro x hx
  exact specStableFilter_stable pkg x (mem_insertionSortB.1 hx)

theorem specStableSorted_perm (pkg : SlimPackument) :
    List.Perm (specStableSorted pkg) (specStableFilter pkg) :=
  insertionSortB_perm semverLeB (specStableFilter pkg)

theorem specStableSorted_pairwise (pkg : SlimPackument) :
    (specStableSorted pkg).Pairwise (fun a b => semverLeB a b = true) :=
  insertionSortB_pairwise semverLeB StableStr semverLeB_total_stable
    semverLeB_trans_stable (specStableFilter pkg) (specStableFilter_stable pkg)

theorem specStableSorted_nodup {pkg : SlimPackument}
    (hnd : (pkg.time.map Prod.fst).Nodup) : (specStableSorted pkg).Nodup :=
  ((specStableSorted_perm pkg).nodup_iff).2 (hnd.filter _)

/-- The stable branch of `getComparisonVersion`, written against the
specification-side sorted list. -/
theorem getComparisonVersion_stable (pkg : SlimPackument) (v : String)
    (h : isPrereleaseStr v = false) :
    getComparisonVersion pkg v =
      .ok (if jsIndexOf (specStableSorted pkg) v ≤ 0 then none
           else (specStableSorted pkg)[(jsIndexOf (specStableSorted pkg) v - 1).toNat]?) := by
  unfold getComparisonVersion
  rw [h]
  have hvalid : ∀ x ∈ stableVersionKeys pkg, validJS x = true := by
    intro x hx
    rw [stableVersionKeys_eq] at hx
    exact (specStableFilter_stable pkg x hx).1
  rw [sortExc_ok hvalid, stableVersionKeys_eq]
  simp only [Bool.false_eq_true, if_false]
  simp only [specStableSorted]
  by_cases hc : jsIndexOf (insertionSortB semverLeB (specStableFilter pkg)) v ≤ 0
  · simp only [hc, if_pos, if_true]
  · simp only [hc, if_neg, if_false, List.get?_eq_getElem?]

end Npmx


namespace Npmx

/-- Full characterization of the stable branch: the position of the
resolved version in the ascending stable list decides the result. -/
theorem getComparisonVersion_stable_iff (pkg : SlimPackument) (v : String)
    (hnd : (pkg.time.map Prod.fst).Nodup) (hstable : isPrereleaseStr v = false) :
    ∃ r : Option String, getComparisonVersion pkg v = .ok r ∧
      (∀ w, r = some w ↔ ∃ i : Nat,
        (specStableSorted pkg)[i]? = some w ∧ (specStableSorted pkg)[i + 1]? = some v) ∧
      (r = none ↔ (specStableSorted pkg)[0]? = some v ∨ v ∉ specStableSorted pkg) := by
  have hnodup : (specStableSorted pkg).Nodup := specStableSorted_nodup hnd
  by_cases hmem : v ∈ specStableSorted pkg
  · obtain ⟨k, hk, hget, hfirst⟩ := jsIndexOf_spec hmem
    have huniq : ∀ j : Nat, (specStableSorted pkg)[j]? = some v → j = k := fun j hj =>
      List.getElem?_inj (List.getElem?_eq_some_iff.1 hj).1 hnodup (hj.trans hget.symm)
    by_cases hk0 : k = 0
    · subst hk0
      refine ⟨none, ?_, ?_, ?_⟩
      · rw [getComparisonVersion_stable pkg v hstable, hk]
        norm_num
      · intro w
        constructor
        · intro h
          exact absurd h (by simp)
        · rintro ⟨i, hiw, hiv⟩
          exact absurd (huniq (i + 1) hiv) (by omega)
      · exact ⟨fun _ => Or.inl hget, fun _ => rfl⟩
    · have hklen : k < (specStableSorted pkg).length := (List.getElem?_eq_some_iff.1 hget).1
      have hk1len : k - 1 < (specStableSorted pkg).length := by omega
      refine ⟨some ((specStableSorted pkg)[k - 1]), ?_, ?_, ?_⟩
      · rw [getComparisonVersion_stable pkg v hstable, hk]
        have hcond : ¬((k : Int) ≤ 0) := by omega
        rw [if_neg hcond]
        have htn : ((k : Int) - 1).toNat = k - 1 := by omega
        rw [htn, List.getElem?_eq_getElem hk1len]
      · intro w
        constructor
        · intro hw
          cases hw
          refine ⟨k - 1, ?_, ?_⟩
          · rw [List.getElem?_eq_getElem hk1len]
          · have hkk : k - 1 + 1 = k := by omega
            rw [hkk]
            exact hget
        · rintro ⟨i, hiw, hiv⟩
          have hik : i + 1 = k := huniq (i + 1) hiv
          have hieq : i = k - 1 := by omega
          rw [hieq, List.getElem?_eq_getElem hk1len] at hiw
          exact hiw
      · constructor
        · intro h
          exact absurd h (by simp)
        · rintro (h | h)
          · exact absurd (huniq 0 h).symm hk0
          · exact absurd hmem h
  · refine ⟨none, ?_, ?_, ?_⟩
    · rw [getComparisonVersion_stable pkg v hstable, jsIndexOf_of_not_mem hmem]
      norm_num
    · intro w
      constructor
      · intro h
        exact absurd h (by simp)
      · rintro ⟨i, hiw, hiv⟩
        exact absurd (List.getElem?_mem hiv) hmem
    · exact ⟨fun _ => Or.inr hmem, fun _ => rfl⟩

end Npmx

namespace Npmx

/-- C1: for every packument and every stable (non-prerelease) resolved
version, the comparison version returned by `getComparisonVersion` is the
immediate predecessor of the resolved version in the list of all valid,
non-prerelease versions taken from the packument's `time` map and sorted
ascending by semantic-version order; it is `none` exactly when the
resolved version is the earliest stable release in that list (index 0) or
does not occur in it.  (`specStableSorted` is that list: a permutation of
the validity filter of the `time` keys, pairwise nondecreasing under
semver comparison.) -/
theorem c1_stable_comparison_is_semver_predecessor (pkg : SlimPackument) (v : String)
    (hnd : (pkg.time.map Prod.fst).Nodup) (hstable : isPrereleaseStr v = false) :
    ∃ r : Option String,
      getComparisonVersion pkg v = .ok r ∧
      (specStableSorted pkg).Pairwise (fun a b => semverLeB a b = true) ∧
      List.Perm (specStableSorted pkg) (specStableFilter pkg) ∧
      (∀ w, r = some w ↔ ∃ i : Nat,
        (specStableSorted pkg)[i]? = some w ∧ (specStableSorted pkg)[i + 1]? = some v) ∧
      (r = none ↔ (specStableSorted pkg)[0]? = some v ∨ v ∉ specStableSorted pkg) := by
  obtain ⟨r, h1, h2, h3⟩ := getComparisonVersion_stable_iff pkg v hnd hstable
  exact ⟨r, h1, specStableSorted_pairwise pkg, specStableSorted_perm pkg, h2, h3⟩

/-- Witness for C1 at a concrete three-release packument. -/
theorem c1_witness :
    ∃ r : Option String,
      getComparisonVersion pkgThreeStable "1.2.0" = .ok r ∧
      (specStableSorted pkgThreeStable).Pairwise (fun a b => semverLeB a b = true) ∧
      List.Perm (specStableSorted pkgThreeStable) (specStableFilter pkgThreeStable) ∧
      (∀ w, r = some w ↔ ∃ i : Nat,
        (specStableSorted pkgThreeStable)[i]? = some w ∧
        (specStableSorted pkgThreeStable)[i + 1]? = some "1.2.0") ∧
      (r = none ↔ (specStableSorted pkgThreeStable)[0]? = some "1.2.0" ∨
        "1.2.0" ∉ specStableSorted pkgThreeStable) :=
  c1_stable_comparison_is_semver_predecessor pkgThreeStable "1.2.0" (by decide) (by decide)

/-- C8: `getComparisonVersion` is total — for every packument and every
resolved version string, including malformed versions and missing
dist-tags, it evaluates to a result (`.ok`) and never to a thrown
exception (`.error`). -/
theorem c8_comparison_version_never_throws (pkg : SlimPackument) (v : String) :
    ∃ r : Option String, getComparisonVersion pkg v = .ok r := by
  by_cases hpre : isPrereleaseStr v = true
  · unfold getComparisonVersion
    rw [hpre]
    simp only [eq_self_iff_true, if_true]
    cases distTagLatest pkg with
    | none => exact ⟨none, rfl⟩
    | some latest =>
      by_cases h0 : latest = ""
      · exact ⟨none, by simp [h0]⟩
      · by_cases hv : latest = v
        · exact ⟨none, by simp [hv]⟩
        · exact ⟨some latest, by simp [h0, hv]⟩
  · have hst : isPrereleaseStr v = false := by simpa using hpre
    exact ⟨_, getComparisonVersion_stable pkg v hst⟩

end Npmx

namespace Npmx

/-- C2 counterexample: a present `latest` dist-tag whose value is the
empty string is neither absent nor equal to the prerelease resolved
version, yet `getComparisonVersion` returns `none` (the `!latest`
truthiness test also rejects the empty string). -/
theorem c2_counterexample :
    isPrereleaseStr "2.0.0-beta.1" = true ∧
    distTagLatest pkgEmptyLatest ≠ none ∧
    distTagLatest pkgEmptyLatest ≠ some "2.0.0-beta.1" ∧
    getComparisonVersion pkgEmptyLatest "2.0.0-beta.1" = .ok none := by
  refine ⟨by decide, by decide, by decide, rfl⟩

/-- C2 (amended): for a prerelease resolved version,
`getComparisonVersion` returns the `latest` dist-tag version, and returns
`none` exactly when that tag is absent, is the empty string, or equals
the resolved version. -/
theorem c2_prerelease_comparison_is_latest (pkg : SlimPackument) (v : String)
    (hpre : isPrereleaseStr v = true) :
    ∃ r : Option String, getComparisonVersion pkg v = .ok r ∧
      (∀ w, r = some w ↔ distTagLatest pkg = some w ∧ w ≠ "" ∧ w ≠ v) ∧
      (r = none ↔ distTagLatest pkg = none ∨ distTagLatest pkg = some "" ∨
        distTagLatest pkg = some v) := by
  unfold getComparisonVersion
  rw [hpre]
  simp only [eq_self_iff_true, if_true]
  cases hdt : distTagLatest pkg with
  | none =>
    refine ⟨none, rfl, ?_, ?_⟩
    · intro w
      constructor
      · intro h
        exact absurd h (by simp)
      · rintro ⟨hw, _, _⟩
        exact absurd hw (by simp)
    · exact ⟨fun _ => Or.inl rfl, fun _ => rfl⟩
  | some latest =>
    by_cases h0 : latest = ""
    · subst h0
      refine ⟨none, by simp, ?_, ?_⟩
      · intro w
        constructor
        · intro h
          exact absurd h (by simp)
        · rintro ⟨hw, hne, _⟩
          exact absurd (Option.some.inj hw).symm hne
      · exact ⟨fun _ => Or.inr (Or.inl rfl), fun _ => rfl⟩
    · by_cases hv : latest = v
      · refine ⟨none, by simp [hv], ?_, ?_⟩
        · intro w
          constructor
          · intro h
            exact absurd h (by simp)
          · rintro ⟨hw, _, hne⟩
            rw [(Option.some.inj hw).symm, hv] at hne
            exact absurd rfl hne
        · exact ⟨fun _ => Or.inr (Or.inr (by rw [hv])), fun _ => rfl⟩
      · refine ⟨some latest, by simp [h0, hv], ?_, ?_⟩
        · intro w
          constructor
          · intro h
            cases h
            exact ⟨rfl, h0, hv⟩
          · rintro ⟨hw, _, _⟩
            exact hw
        · constructor
          · intro h
            exact absurd h (by simp)
          · rintro (h | h | h)
            · exact absurd h (by simp)
            · exact absurd (Option.some.inj h) h0
            · exact absurd (Option.some.inj h) hv

/-- Witness for C2 (amended) at a concrete prerelease packument with a
stable `latest` tag. -/
theorem c2_witness :
    ∃ r : Option String,
      getComparisonVersion pkgPrereleaseLatest "2.0.0-beta.1" = .ok r ∧
      (∀ w, r = some w ↔ distTagLatest pkgPrereleaseLatest = some w ∧ w ≠ "" ∧
        w ≠ "2.0.0-beta.1") ∧
      (r = none ↔ distTagLatest pkgPrereleaseLatest = none ∨
        distTagLatest pkgPrereleaseLatest = some "" ∨
        distTagLatest pkgPrereleaseLatest = some "2.0.0-beta.1") :=
  c2_prerelease_comparison_is_latest pkgPrereleaseLatest "2.0.0-beta.1" (by decide)

end Npmx

namespace Npmx

/-- C3 counterexample: in `pkgBackport`, version `1.0.1` was published
after `2.0.0`, so `2.0.0` has no stable release published before it — the
by-creation-time selector of the specification yields `none` — yet the
code selects `1.0.1`, its semver predecessor. -/
theorem c3_counterexample :
    isPrereleaseStr "2.0.0" = false ∧
    getComparisonVersion pkgBackport "2.0.0" = .ok (some "1.0.1") ∧
    prevStableByCreationTime pkgBackport "2.0.0" = none := by
  refine ⟨by decide, rfl, rfl⟩

/-- C3 (amended): for a stable resolved version, the comparison version is
the previous stable release ordered by semantic version, not by creation
time: it is semver-`≤` the resolved version and immediately precedes it in
the semver-ascending stable list. -/
theorem c3_stable_comparison_ordered_by_semver (pkg : SlimPackument) (v w : String)
    (hnd : (pkg.time.map Prod.fst).Nodup) (hstable : isPrereleaseStr v = false)
    (hw : getComparisonVersion pkg v = .ok (some w)) :
    semverLeB w v = true ∧
      ∃ i : Nat, (specStableSorted pkg)[i]? = some w ∧
        (specStableSorted pkg)[i + 1]? = some v := by
  obtain ⟨r, h1, h2, _⟩ := getComparisonVersion_stable_iff pkg v hnd hstable
  rw [h1] at hw
  have hr : r = some w := Except.ok.inj hw
  obtain ⟨i, hiw, hiv⟩ := (h2 w).1 hr
  refine ⟨?_, i, hiw, hiv⟩
  have hp := specStableSorted_pairwise pkg
  rw [List.pairwise_iff_getElem] at hp
  have hi1len : i + 1 < (specStableSorted pkg).length := (List.getElem?_eq_some_iff.1 hiv).1
  have hilen : i < (specStableSorted pkg).length := by omega
  have hrel := hp i (i + 1) hilen hi1len (by omega)
  rw [List.getElem?_eq_getElem hilen] at hiw
  rw [List.getElem?_eq_getElem hi1len] at hiv
  rw [← Option.some.inj hiw, ← Option.some.inj hiv]
  exact hrel

/-- Witness for C3 (amended) at a concrete three-release packument. -/
theorem c3_witness :
    semverLeB "1.1.0" "1.2.0" = true ∧
      ∃ i : Nat, (specStableSorted pkgThreeStable)[i]? = some "1.1.0" ∧
        (specStableSorted pkgThreeStable)[i + 1]? = some "1.2.0" :=
  c3_stable_comparison_ordered_by_semver pkgThreeStable "1.2.0" "1.1.0"
    (by decide) (by decide) rfl

end Npmx

namespace Npmx

/-! ## Lemmas about the diff computation -/

/-- Elimination principle for a produced diff: all guards passed and the
record's fields are the computed values. -/
theorem diffFrom_some_elim {name : String} {rv cv : Option String}
    {cur prev : Option InstallSizeResult} {d : InstallSizeDiff}
    (h : diffFrom name rv cv cur prev = some d) :
    ∃ c p w, cur = some c ∧ prev = some p ∧ cv = some w ∧ ¬w = "" ∧
      p.version = w ∧ p.package = name ∧ rv = some c.version ∧ c.package = name ∧
      d = { comparisonVersion := w
            sizeRatio := sizeRatioOf c p
            sizeIncrease := c.totalSize - p.totalSize
            currentSize := c.totalSize
            previousSize := p.totalSize
            depDiff := c.dependencyCount - p.dependencyCount
            currentDeps := c.dependencyCount
            previousDeps := p.dependencyCount
            sizeThresholdExceeded := decide (sizeRatioOf c p > SIZE_INCREASE_THRESHOLD)
            depThresholdExceeded :=
              decide (c.dependencyCount - p.dependencyCount > DEP_INCREASE_THRESHOLD) } ∧
      (sizeRatioOf c p > SIZE_INCREASE_THRESHOLD ∨
        c.dependencyCount - p.dependencyCount > DEP_INCREASE_THRESHOLD) := by
  cases cur with
  | none => simp [diffFrom] at h
  | some c =>
  cases prev with
  | none => simp [diffFrom] at h
  | some p =>
  cases cv with
  | none => simp [diffFrom] at h
  | some w =>
  simp only [diffFrom] at h
  split_ifs at h with h1 h2 h3 h4
  push_neg at h2 h3
  obtain ⟨hpv, hpp⟩ := h2
  obtain ⟨hcv, hcp⟩ := h3
  refine ⟨c, p, w, rfl, rfl, rfl, h1, hpv, hpp, hcv.symm, hcp,
    (Option.some.inj h).symm, ?_⟩
  by_contra hcon
  push_neg at hcon
  apply h4
  rw [decide_eq_false (not_lt.2 hcon.1), decide_eq_false (not_lt.2 hcon.2)]
  rfl

end Npmx

namespace Npmx

/-- When neither threshold is met, the computed diff is discarded. -/
theorem diffFrom_none_of_thresholds (name : String) (rv cv : Option String)
    (c p : InstallSizeResult)
    (hs : sizeRatioOf c p ≤ SIZE_INCREASE_THRESHOLD)
    (hd : c.dependencyCount - p.dependencyCount ≤ DEP_INCREASE_THRESHOLD) :
    diffFrom name rv cv (some c) (some p) = none := by
  cases cv with
  | none => rfl
  | some w =>
    simp only [diffFrom]
    split_ifs with h1 h2 h3 h4
    · rfl
    · rfl
    · rfl
    · rfl
    · exact absurd (by rw [decide_eq_false (not_lt.2 hs),
        decide_eq_false (not_lt.2 hd)]; rfl) h4

/-- C4 counterexample: a comparison result with a negative (hence nonzero)
total size makes the code's `> 0` guard return a zero ratio, not the
quotient `(current − previous) / previous`. -/
theorem c4_counterexample :
    (diffFrom "p" (some "1.1.0") (some "1.0.0") (some curNegPrev)
        (some prevNegPrev)).map InstallSizeDiff.sizeRatio = some 0 ∧
    prevNegPrev.totalSize ≠ 0 ∧
    (curNegPrev.totalSize - prevNegPrev.totalSize) / prevNegPrev.totalSize ≠ 0 := by
  refine ⟨?_, by norm_num [prevNegPrev], by norm_num [curNegPrev, prevNegPrev]⟩
  simp only [diffFrom, sizeRatioOf, curNegPrev, prevNegPrev,
    SIZE_INCREASE_THRESHOLD, DEP_INCREASE_THRESHOLD]
  norm_num
  exact ⟨_, ⟨by decide, rfl⟩, rfl⟩

/-- C4 (amended): in every produced diff, `sizeRatio` is
`(current.totalSize − previous.totalSize) / previous.totalSize` when
`previous.totalSize` is positive and `0` otherwise (in particular when it
is zero — no division by zero occurs, and in the exact rational model no
infinity or NaN exists); `depDiff` is always
`current.dependencyCount − previous.dependencyCount`. -/
theorem c4_size_ratio_and_dep_diff (name : String) (rv cv : Option String)
    (c p : InstallSizeResult) (d : InstallSizeDiff)
    (h : diffFrom name rv cv (some c) (some p) = some d) :
    (0 < p.totalSize → d.sizeRatio = (c.totalSize - p.totalSize) / p.totalSize) ∧
    (p.totalSize ≤ 0 → d.sizeRatio = 0) ∧
    d.depDiff = c.dependencyCount - p.dependencyCount := by
  obtain ⟨c', p', w, hc, hp, _, _, _, _, _, _, hd, _⟩ := diffFrom_some_elim h
  cases hc
  cases hp
  subst hd
  unfold sizeRatioOf
  refine ⟨fun hpos => ?_, fun hneg => ?_, rfl⟩
  · rw [if_pos hpos]
  · rw [if_neg (not_lt.2 hneg)]

/-- Witness for C4 (amended) at the repository's size-threshold fixture. -/
theorem c4_witness :
    (0 < prevSizeOnly.totalSize →
      diffSizeOnly.sizeRatio =
        (curSizeOnly.totalSize - prevSizeOnly.totalSize) / prevSizeOnly.totalSize) ∧
    (prevSizeOnly.totalSize ≤ 0 → diffSizeOnly.sizeRatio = 0) ∧
    diffSizeOnly.depDiff = curSizeOnly.dependencyCount - prevSizeOnly.dependencyCount :=
  c4_size_ratio_and_dep_diff "pkg-size-only" (some "1.1.0") (some "1.0.0")
    curSizeOnly prevSizeOnly diffSizeOnly (by
      simp only [diffFrom, sizeRatioOf, curSizeOnly, prevSizeOnly, diffSizeOnly,
        SIZE_INCREASE_THRESHOLD, DEP_INCREASE_THRESHOLD]
      norm_num
      intro h
      exact absurd h (by decide))

end Npmx

namespace Npmx

/-- C5: threshold gate.  In every produced diff the flags are exactly the
strict comparisons `sizeRatio > 0.25` and `depDiff > 5`; when neither
threshold is exceeded the diff is `none`; and on the repository's concrete
fixtures: current 7000 vs previous 5000 gives `sizeRatio = 2/5 = 0.4` with
the size flag set, while current 5100/4 deps vs previous 5000/3 deps is
suppressed. -/
theorem c5_threshold_gate :
    (∀ (name : String) (rv cv : Option String) (c p : InstallSizeResult)
        (d : InstallSizeDiff), diffFrom name rv cv (some c) (some p) = some d →
      (d.sizeThresholdExceeded = true ↔ d.sizeRatio > SIZE_INCREASE_THRESHOLD) ∧
      (d.depThresholdExceeded = true ↔ d.depDiff > DEP_INCREASE_THRESHOLD)) ∧
    (∀ (name : String) (rv cv : Option String) (c p : InstallSizeResult),
      sizeRatioOf c p ≤ SIZE_INCREASE_THRESHOLD →
      c.dependencyCount - p.dependencyCount ≤ DEP_INCREASE_THRESHOLD →
      diffFrom name rv cv (some c) (some p) = none) ∧
    (diffFrom "pkg-size-only" (some "1.1.0") (some "1.0.0") (some curSizeOnly)
        (some prevSizeOnly) = some diffSizeOnly ∧
      diffSizeOnly.sizeRatio = 2 / 5 ∧ diffSizeOnly.sizeThresholdExceeded = true) ∧
    diffFrom "pkg-no-threshold" (some "1.1.0") (some "1.0.0") (some curNoThreshold)
      (some prevNoThreshold) = none := by
  refine ⟨?_, diffFrom_none_of_thresholds, ⟨?_, rfl, rfl⟩, ?_⟩
  · intro name rv cv c p d h
    obtain ⟨c', p', w, hc, hp, _, _, _, _, _, _, hd, _⟩ := diffFrom_some_elim h
    cases hc
    cases hp
    subst hd
    exact ⟨decide_eq_true_iff, decide_eq_true_iff⟩
  · simp only [diffFrom, sizeRatioOf, curSizeOnly, prevSizeOnly, diffSizeOnly,
      SIZE_INCREASE_THRESHOLD, DEP_INCREASE_THRESHOLD]
    norm_num
    intro h
    exact absurd h (by decide)
  · simp only [diffFrom, sizeRatioOf, curNoThreshold, prevNoThreshold,
      SIZE_INCREASE_THRESHOLD, DEP_INCREASE_THRESHOLD]
    norm_num

/-- Witness for C5 applying the gate characterization to the produced
fixture diff. -/
theorem c5_witness :
    (diffSizeOnly.sizeThresholdExceeded = true ↔
      diffSizeOnly.sizeRatio > SIZE_INCREASE_THRESHOLD) ∧
    (diffSizeOnly.depThresholdExceeded = true ↔
      diffSizeOnly.depDiff > DEP_INCREASE_THRESHOLD) :=
  c5_threshold_gate.1 "pkg-size-only" (some "1.1.0") (some "1.0.0")
    curSizeOnly prevSizeOnly diffSizeOnly c5_threshold_gate.2.2.1.1

/-- C6: identity invariant — a non-`none` diff requires both install-size
results present, each referencing exactly the requested package name and
the expected version (the current result the resolved version, the
comparison result the comparison version). -/
theorem c6_identity_invariant (name : String) (rv cv : Option String)
    (cur prev : Option InstallSizeResult)
    (h : diffFrom name rv cv cur prev ≠ none) :
    ∃ c p v w, cur = some c ∧ prev = some p ∧ rv = some v ∧ cv = some w ∧
      c.package = name ∧ c.version = v ∧ p.package = name ∧ p.version = w := by
  cases hd : diffFrom name rv cv cur prev with
  | none => exact absurd hd h
  | some d =>
    obtain ⟨c, p, w, hc, hp, hw, _, hpv, hpp, hcv, hcp, _, _⟩ := diffFrom_some_elim hd
    exact ⟨c, p, c.version, w, hc, hp, hcv, hw, hcp, rfl, hpp, hpv⟩

/-- Witness for C6 at the repository's size-threshold fixture. -/
theorem c6_witness :
    ∃ c p v w, some curSizeOnly = some c ∧ some prevSizeOnly = some p ∧
      (some "1.1.0" : Option String) = some v ∧ (some "1.0.0" : Option String) = some w ∧
      c.package = "pkg-size-only" ∧ c.version = v ∧
      p.package = "pkg-size-only" ∧ p.version = w :=
  c6_identity_invariant "pkg-size-only" (some "1.1.0") (some "1.0.0")
    (some curSizeOnly) (some prevSizeOnly) (by
      simp only [diffFrom, sizeRatioOf, curSizeOnly, prevSizeOnly,
        SIZE_INCREASE_THRESHOLD, DEP_INCREASE_THRESHOLD]
      norm_num
      exact ⟨by decide, by simp⟩)

end Npmx

namespace Npmx

/-- C7: over any client session, no comparison-size fetch is issued from a
snapshot whose comparison version is unresolvable (`none`). -/
theorem c7_no_fetch_without_comparison_version (trace : List ReactiveInput)
    (h : ∀ s ∈ trace, comparisonVersionOpt s.pkg s.resolvedVersion = .ok none) :
    comparisonFetchUrls trace = [] := by
  induction trace with
  | nil => rfl
  | cons s t ih =>
    have hs := h s (List.mem_cons_self s t)
    have ht := ih fun x hx => h x (List.mem_cons_of_mem s hx)
    simp only [comparisonFetchUrls, List.flatMap_cons, hs] at *
    simpa [comparisonFetchUrls] using ht

/-- Witness for C7: a session whose only snapshot has no packument. -/
theorem c7_witness : comparisonFetchUrls [snapshotNoPkg] = [] :=
  c7_no_fetch_without_comparison_version [snapshotNoPkg]
    (fun s hs => by rw [List.mem_singleton.1 hs]; rfl)

/-- C9: the diff is a pure function of its five current inputs — the last
result of any evaluation sequence ending in the same input snapshot is the
same, whatever evaluations preceded it (no mutable accumulation across
calls). -/
theorem c9_diff_recomputed_deterministically (h1 h2 : List DiffInputs) (i : DiffInputs) :
    (evalDiffSequence (h1 ++ [i])).getLast? = (evalDiffSequence (h2 ++ [i])).getLast? := by
  unfold evalDiffSequence
  rw [List.map_append, List.map_append, List.map_cons, List.map_nil,
    List.getLast?_concat, List.getLast?_concat]

end Npmx

namespace Npmx

/-! ## Lemmas about `calculateInstallSize` -/

theorem depSizeDescLe_total (x y : DependencySize) :
    depSizeDescLe x y = true ∨ depSizeDescLe y x = true := by
  unfold depSizeDescLe
  rcases le_total y.size x.size with h | h
  · exact Or.inl (decide_eq_true (by linarith))
  · exact Or.inr (decide_eq_true (by linarith))

theorem depSizeDescLe_trans (x y z : DependencySize)
    (h1 : depSizeDescLe x y = true) (h2 : depSizeDescLe y z = true) :
    depSizeDescLe x z = true := by
  unfold depSizeDescLe at h1 h2 ⊢
  have h1x := of_decide_eq_true h1
  have h2x := of_decide_eq_true h2
  exact decide_eq_true (by linarith)

/-- C10: every `InstallSizeResult` produced by `calculateInstallSize`
satisfies: the total size is the self size plus the sum of the sizes of
the listed dependencies; the dependency count is the length of that list;
the package itself never appears in it; and the list is sorted by size in
descending order.  (The keys of the resolved map are `name@version` of
their entries, the shape produced by the dependency resolver.) -/
theorem c10_install_size_result_invariants (name version : String)
    (resolved : List (String × ResolvedDep))
    (hkeys : ∀ e ∈ resolved, e.1 = selfKeyOf e.2.name e.2.version) :
    (calculateInstallSize name version resolved).totalSize =
      (calculateInstallSize name version resolved).selfSize +
        ((calculateInstallSize name version resolved).dependencies.map
          DependencySize.size).sum ∧
    (calculateInstallSize name version resolved).dependencyCount =
      ((calculateInstallSize name version resolved).dependencies.length : ℤ) ∧
    (∀ d ∈ (calculateInstallSize name version resolved).dependencies,
      ¬(d.name = name ∧ d.version = version)) ∧
    (calculateInstallSize name version resolved).dependencies.Pairwise
      (fun a b => b.size ≤ a.size) := by
  simp only [calculateInstallSize]
  refine ⟨?_, ?_, ?_, ?_⟩
  · rw [((insertionSortB_perm depSizeDescLe _).map DependencySize.size).sum_eq]
  · rw [(insertionSortB_perm depSizeDescLe _).length_eq]
  · intro d hd
    rw [mem_insertionSortB] at hd
    obtain ⟨e, he, hfe⟩ := List.mem_map.1 hd
    have hef : e ∈ resolved := List.mem_of_mem_filter he
    have hpred := List.of_mem_filter he
    rintro ⟨hn, hv⟩
    subst hfe
    have hn' : e.2.name = name := hn
    have hv' : e.2.version = version := hv
    have hkey : e.1 = selfKeyOf name version := by
      rw [hkeys e hef, hn', hv']
    rw [Bool.not_eq_true'] at hpred
    exact absurd hkey (beq_eq_false_iff_ne.1 hpred)
  · exact List.Pairwise.imp (fun h => sub_nonpos.1 (of_decide_eq_true h))
      (insertionSortB_pairwise depSizeDescLe (fun _ => True)
        (fun x y _ _ => depSizeDescLe_total x y)
        (fun x y z _ _ _ => depSizeDescLe_trans x y z) _ (fun x _ => trivial))

/-- Witness for C10 at a concrete three-entry resolved map. -/
theorem c10_witness :
    (calculateInstallSize "a" "1.0.0" resolvedFixture).totalSize =
      (calculateInstallSize "a" "1.0.0" resolvedFixture).selfSize +
        ((calculateInstallSize "a" "1.0.0" resolvedFixture).dependencies.map
          DependencySize.size).sum ∧
    (calculateInstallSize "a" "1.0.0" resolvedFixture).dependencyCount =
      ((calculateInstallSize "a" "1.0.0" resolvedFixture).dependencies.length : ℤ) ∧
    (∀ d ∈ (calculateInstallSize "a" "1.0.0" resolvedFixture).dependencies,
      ¬(d.name = "a" ∧ d.version = "1.0.0")) ∧
    (calculateInstallSize "a" "1.0.0" resolvedFixture).dependencies.Pairwise
      (fun a b => b.size ≤ a.size) :=
  c10_install_size_result_invariants "a" "1.0.0" resolvedFixture (by decide)

end Npmx
